import Mathlib

/-!
Shallow embedding of `helix-view/src/register.rs`: the named-register and
clipboard-integration layer of the helix editor.

Modelling conventions:
* Rust `String` / `&str` values are modelled as `List Char` (`Str` below),
  so that prefix tests and slicing are plain list operations.
* `VecDeque<T>` is a `List T` whose head is the front (oldest element);
  `push_back` appends at the end, `pop_front` drops the head.
* The platform constant `NATIVE_LINE_ENDING` (from `helix-core`, outside
  this crate) is threaded through as an explicit parameter `sep`.
* A Rust panic (the `expect` in `Register::write`) is modelled by returning
  `none`; `anyhow::Result` is modelled by `Except RegErr`.
* The external clipboard and its possible I/O failures are modelled by
  storing both clipboard contents in the store state and passing Boolean
  failure flags (`getFail` / `setFail`) describing the backend's behaviour
  at the call: a successful `get_contents` returns the stored content, a
  successful `set_contents` replaces it, and a failing call leaves it
  unchanged and reports an error.  Error logging (`log::error!`) is
  modelled as a Boolean "an error was logged" component where a claim
  needs it.
-/

/-- Text values are lists of characters. -/
abbrev Str := List Char

/-- The last `n` elements of a list, in order (all of the list if `n` is
larger than its length). -/
def lastN (n : ℕ) (l : List α) : List α := l.drop (l.length - n)

/-- Concatenation of a list of lists (flattening of a batch list into the
flat value sequence stored by a register). -/
def flat : List (List α) → List α
  | [] => []
  | s :: rest => s ++ flat rest

/-- `src/helix-view/src/register.rs` line 20: `MAX_REGISTER_HISTORY_LEN`.
Standard registers store up to this many yanks worth of history. -/
def MAX_REGISTER_HISTORY_LEN : ℕ := 100

/-- `Register` (register.rs lines 22-38): the values held by the register,
stored flat, oldest first, together with the length of each yank. -/
structure Register where
  values : List Str
  lengths : List ℕ
deriving DecidableEq, Repr

/-- `Register::values` (register.rs lines 45-55): the most recent yank,
i.e. the last `lengths.back()` values (or nothing when empty). -/
def Register.values' (reg : Register) : List Str :=
  lastN (reg.lengths.getLast?.getD 0) reg.values

/-- `Register::latest_value` (register.rs lines 41-43). -/
def Register.latest_value (reg : Register) : Option Str :=
  reg.values.getLast?

/-- The eviction step of `Register::write` (register.rs lines 58-63): if
the register holds more than `MAX_REGISTER_HISTORY_LEN` yanks, discard the
oldest yank and its values. -/
def Register.evictIfFull (reg : Register) : Register :=
  if reg.lengths.length > MAX_REGISTER_HISTORY_LEN then
    { values := reg.values.drop (reg.lengths.head?.getD 0),
      lengths := reg.lengths.tail }
  else reg

/-- The append of the new yank performed by `Register::write` after the
eviction check (register.rs lines 65-69), with the `expect` on an empty
yank modelled by `none`. -/
def Register.write (reg : Register) (vs : List Str) : Option Register :=
  if vs.length = 0 then none
  else some { values := reg.evictIfFull.values ++ vs,
              lengths := reg.evictIfFull.lengths ++ [vs.length] }

/-- `Register::push` (register.rs lines 72-79): append one value to the most
recent yank, creating a one-element yank if none exists. -/
def Register.push (reg : Register) (value : Str) : Register :=
  { values := reg.values ++ [value],
    lengths :=
      match reg.lengths.getLast? with
      | some n => reg.lengths.dropLast ++ [n + 1]
      | none => [1] }

/-- Iterated `Register::write` (a sequence of write calls to one name);
`none` as soon as one write panics. -/
def Register.writeMany (reg : Register) : List (List Str) → Option Register
  | [] => some reg
  | b :: bs =>
    match reg.write b with
    | none => none
    | some r => r.writeMany bs

/-- Loop body of `contents_are_saved` (register.rs lines 341-347): for each
remaining value, require the text to continue with the separator followed by
that value, and consume both. -/
def contentsLoop (sep : Str) : List Str → Str → Bool
  | [], _ => true
  | v :: vs, contents =>
    if sep.isPrefixOf contents ∧ v.isPrefixOf (contents.drop sep.length) then
      contentsLoop sep vs (contents.drop (sep.length + v.length))
    else false

/-- `contents_are_saved` (register.rs lines 330-350): decide whether the raw
clipboard text corresponds to the cached value sequence joined with the
native line separator. -/
def contents_are_saved (sep : Str) (values : List Str) (contents : Str) : Bool :=
  match values with
  | [] => contents.isEmpty
  | first :: rest =>
    if first.isPrefixOf contents then contentsLoop sep rest (contents.drop first.length)
    else false

/-- `ClipboardType` (from `helix-view/src/clipboard.rs`, outside this file's
claims): the two OS clipboard kinds. -/
inductive ClipboardType where
  | clipboard
  | selection
deriving DecidableEq, Repr

/-- The clipboard kind a clipboard register name maps to: `'+'` is the
system clipboard, `'*'` the primary selection (register.rs lines 145-149,
170-174, 190-194, 262-266). -/
def clipTypeOf (name : Char) : ClipboardType :=
  if name = '+' then ClipboardType.clipboard else ClipboardType.selection

/-- Lookup in the name-to-register mapping (`HashMap::get`). -/
def getReg : List (Char × Register) → Char → Option Register
  | [], _ => none
  | (c', r) :: rest, c => if c' = c then some r else getReg rest c

/-- Insert or replace in the name-to-register mapping (`HashMap` insertion,
also the effect of `entry(name).or_default()` followed by mutation). -/
def setReg : List (Char × Register) → Char → Register → List (Char × Register)
  | [], c, r => [(c, r)]
  | (c', r') :: rest, c, r =>
    if c' = c then (c, r) :: rest else (c', r') :: setReg rest c r

/-- Removal from the name-to-register mapping (`HashMap::remove`). -/
def removeReg : List (Char × Register) → Char → List (Char × Register)
  | [], _ => []
  | (c', r) :: rest, c => if c' = c then rest else (c', r) :: removeReg rest c

/-- `Registers` (register.rs lines 94-101) together with the state of the
external clipboards reachable through its `clipboard_provider`:
`clipClipboard` and `clipSelection` are the current contents of the system
clipboard and the primary selection. -/
structure Registers where
  inner : List (Char × Register)
  clipClipboard : Str
  clipSelection : Str
  last_search_register : Char
deriving DecidableEq, Repr

/-- Clipboard content of the given kind (a successful
`clipboard_provider.get_contents`). -/
def Registers.getClip (s : Registers) : ClipboardType → Str
  | ClipboardType.clipboard => s.clipClipboard
  | ClipboardType.selection => s.clipSelection

/-- Replace the clipboard content of the given kind (a successful
`clipboard_provider.set_contents`). -/
def Registers.setClip (s : Registers) : ClipboardType → Str → Registers
  | ClipboardType.clipboard, v => { s with clipClipboard := v }
  | ClipboardType.selection, v => { s with clipSelection := v }

/-- The recoverable errors produced by this module: writing/pushing to a
read-only register, a stale external clipboard on push, and a propagated
clipboard backend failure. -/
inductive RegErr where
  | readOnly
  | stale
  | backend
deriving DecidableEq, Repr

/-- The joining loop of `Registers::write` (register.rs lines 161-167):
fold the register's values into one string, inserting the separator before
a value whenever the accumulated text is non-empty. -/
def joinLoop (sep : Str) (vals : List Str) : Str :=
  vals.foldl (fun acc v => if acc.isEmpty then acc ++ v else acc ++ sep ++ v) []

/-- The editor-context inputs `Registers::read` consumes (selection count,
selection fragments, document path), at their interface boundary. -/
structure EditorCtx where
  selectionCount : ℕ
  selectionFragments : List Str
  docPath : Option Str

/-- Modelled from the spec: `SCRATCH_BUFFER_NAME` (from
`helix-view/src/document.rs`, not under src/), the fixed scratch placeholder
used by the `'%'` register when the document has no path. -/
def SCRATCH_BUFFER_NAME : Str := String.toList "[scratch]"

/-- `read_from_clipboard` (register.rs lines 296-328).  `getFail` tells
whether `provider.get_contents` fails at this call; `contents` is what it
returns on success.  The result pairs the produced value sequence with
whether an error was logged (`log::error!`). -/
def read_from_clipboard (sep : Str) (getFail : Bool) (contents : Str)
    (register : Option Register) : List Str × Bool :=
  if getFail then ([], true)
  else
    match register with
    | none => ([contents], false)
    | some reg =>
      if contents_are_saved sep reg.values' contents then (reg.values', false)
      else ([contents], false)

/-- `Registers::read` (register.rs lines 114-153). -/
def Registers.read (sep : Str) (getFail : Bool) (s : Registers) (ed : EditorCtx)
    (name : Char) : Option (List Str) :=
  if name = '_' then some []
  else if name = '#' then
    some ((List.range ed.selectionCount).map fun i => Nat.toDigits 10 (i + 1))
  else if name = '.' then some ed.selectionFragments
  else if name = '%' then some [ed.docPath.getD SCRATCH_BUFFER_NAME]
  else if name = '*' ∨ name = '+' then
    some (read_from_clipboard sep getFail (s.getClip (clipTypeOf name))
      (getReg s.inner name)).1
  else (getReg s.inner name).map Register.values'

/-- `Registers::write` (register.rs lines 155-183).  `setFail` tells whether
`set_contents` fails at this call; `none` models the panic on an empty
value collection reaching `Register::write`. -/
def Registers.write (sep : Str) (setFail : Bool) (s : Registers) (name : Char)
    (vs : List Str) : Option (Registers × Except RegErr Unit) :=
  if name = '_' then some (s, Except.ok ())
  else if name = '#' ∨ name = '.' ∨ name = '%' then some (s, Except.error RegErr.readOnly)
  else if name = '*' ∨ name = '+' then
    match ((getReg s.inner name).getD ⟨[], []⟩).write vs with
    | none => none
    | some r =>
      let s' := { s with inner := setReg s.inner name r }
      let contents := joinLoop sep r.values'
      if setFail then some (s', Except.error RegErr.backend)
      else some (s'.setClip (clipTypeOf name) contents, Except.ok ())
  else
    match ((getReg s.inner name).getD ⟨[], []⟩).write vs with
    | none => none
    | some r => some ({ s with inner := setReg s.inner name r }, Except.ok ())

/-- `Registers::push` (register.rs lines 185-217).  The clipboard branch
first re-reads the external clipboard (`getFail` tells whether that read
fails), materialises the backing register (`entry(name).or_default()`),
checks the staleness heuristic and bails, or appends locally and then
attempts the external set (`setFail`). -/
def Registers.push (sep : Str) (getFail setFail : Bool) (s : Registers)
    (name : Char) (value : Str) : Registers × Except RegErr Unit :=
  if name = '_' then (s, Except.ok ())
  else if name = '#' ∨ name = '.' ∨ name = '%' then (s, Except.error RegErr.readOnly)
  else if name = '*' ∨ name = '+' then
    let t := clipTypeOf name
    if getFail then (s, Except.error RegErr.backend)
    else
      let contents := s.getClip t
      let reg := (getReg s.inner name).getD ⟨[], []⟩
      let s' := { s with inner := setReg s.inner name reg }
      if contents_are_saved sep reg.values' contents then
        let s'' := { s' with inner := setReg s'.inner name (reg.push value) }
        let newClip := value ++ (if contents.isEmpty then [] else sep) ++ contents
        if setFail then (s'', Except.error RegErr.backend)
        else (s''.setClip t newClip, Except.ok ())
      else (s', Except.error RegErr.stale)
  else
    ({ s with inner := setReg s.inner name (((getReg s.inner name).getD ⟨[], []⟩).push value) },
      Except.ok ())

/-- `Registers::clear_clipboard` (register.rs lines 276-289): best-effort
set of the given clipboard kind to empty content; on backend failure the
clipboard is left as is and an error is logged (second component). -/
def Registers.clear_clipboard (setFail : Bool) (s : Registers)
    (t : ClipboardType) : Registers × Bool :=
  if setFail then (s, true) else (s.setClip t [], false)

/-- `Registers::remove` (register.rs lines 259-274). -/
def Registers.remove (setFail : Bool) (s : Registers) (name : Char) :
    Registers × Bool :=
  if name = '*' ∨ name = '+' then
    let s' := (Registers.clear_clipboard setFail s (clipTypeOf name)).1
    ({ s' with inner := removeReg s'.inner name }, true)
  else if name = '_' ∨ name = '#' ∨ name = '.' ∨ name = '%' then (s, false)
  else ({ s with inner := removeReg s.inner name }, (getReg s.inner name).isSome)

/-! Helper lemmas about the embedding. -/

lemma lastN_of_length_le (l : List α) (h : l.length ≤ n) : lastN n l = l := by
  unfold lastN
  rw [Nat.sub_eq_zero_of_le h, List.drop_zero]

lemma lastN_length_le (n : ℕ) (l : List α) : (lastN n l).length ≤ n := by
  unfold lastN
  rw [List.length_drop]
  omega

lemma lastN_append (ys xs : List α) : lastN xs.length (ys ++ xs) = xs := by
  unfold lastN
  rw [List.length_append, Nat.add_sub_cancel, List.drop_left]

lemma getReg_setReg_self (l : List (Char × Register)) (c : Char) (r : Register) :
    getReg (setReg l c r) c = some r := by
  induction l with
  | nil => simp [setReg, getReg]
  | cons p rest ih =>
    by_cases h : p.1 = c
    · simp [setReg, getReg, h]
    · simp [setReg, getReg, h, ih]

lemma setReg_of_getReg (l : List (Char × Register)) (c : Char) (r : Register)
    (h : getReg l c = some r) : setReg l c r = l := by
  induction l with
  | nil => simp [getReg] at h
  | cons p rest ih =>
    cases p with
    | mk c' r' =>
      by_cases hc : c' = c
      · subst hc
        simp [getReg] at h
        simp [setReg, h]
      · simp [getReg, hc] at h
        simp [setReg, hc, ih h]

lemma Register.write_ne_nil (reg : Register) (vs : List Str) (h : vs ≠ []) :
    ∃ r, reg.write vs = some r ∧ r.values' = vs ∧
      r.lengths.getLast? = some vs.length := by
  have hv : ¬vs.length = 0 := by simpa using h
  refine ⟨{ values := reg.evictIfFull.values ++ vs,
            lengths := reg.evictIfFull.lengths ++ [vs.length] }, ?_, ?_, ?_⟩
  · unfold Register.write
    simp [hv]
  · unfold Register.values'
    rw [List.getLast?_concat]
    simp only [Option.getD_some]
    exact lastN_append _ _
  · exact List.getLast?_concat _

lemma inner_setClip (s : Registers) (t : ClipboardType) (v : Str) :
    (s.setClip t v).inner = s.inner := by
  cases t <;> rfl

lemma getClip_setClip (s : Registers) (t : ClipboardType) (v : Str) :
    (s.setClip t v).getClip t = v := by
  cases t <;> rfl

lemma flat_append (xs ys : List (List α)) : flat (xs ++ ys) = flat xs ++ flat ys := by
  induction xs with
  | nil => simp [flat]
  | cons x rest ih => simp [flat, ih]

lemma lastN_append_lastN (n : ℕ) (xs ys : List α) :
    lastN n (lastN n xs ++ ys) = lastN n (xs ++ ys) := by
  unfold lastN
  rw [show xs.drop (xs.length - n) ++ ys = (xs ++ ys).drop (xs.length - n) from
    (List.drop_append_of_le_length (by omega)).symm]
  rw [List.drop_drop]
  congr 1
  simp only [List.length_drop, List.length_append]
  omega

/-- One `Register::write` step on a register that represents the batch
list `cs`: the result represents the last (at most) 101 batches of
`cs ++ [b]`. -/
lemma Register.write_step (reg : Register) (cs : List (List Str)) (b : List Str)
    (hv : reg.values = flat cs) (hl : reg.lengths = cs.map List.length)
    (hle : cs.length ≤ 101) (hb : b ≠ []) :
    ∃ r, reg.write b = some r ∧
      r.values = flat (lastN 101 (cs ++ [b])) ∧
      r.lengths = (lastN 101 (cs ++ [b])).map List.length ∧
      (lastN 101 (cs ++ [b])).length ≤ 101 := by
  have hblen : ¬b.length = 0 := by simpa using hb
  refine ⟨{ values := reg.evictIfFull.values ++ b,
            lengths := reg.evictIfFull.lengths ++ [b.length] }, ?_, ?_⟩
  · unfold Register.write
    simp [hblen]
  by_cases hc : cs.length ≤ 100
  · have hev : reg.evictIfFull = reg := by
      unfold Register.evictIfFull MAX_REGISTER_HISTORY_LEN
      rw [if_neg (by simp only [hl, List.length_map]; omega)]
    have hfit : lastN 101 (cs ++ [b]) = cs ++ [b] :=
      lastN_of_length_le _ (by simp; omega)
    rw [hev, hfit, hv, hl]
    refine ⟨?_, ?_, by simp; omega⟩
    · rw [flat_append]
      simp [flat]
    · simp
  · have hcs : cs.length = 101 := by omega
    cases cs with
    | nil => simp at hcs
    | cons c cs' =>
      have hcs' : cs'.length = 100 := by simpa using hcs
      have hev : reg.evictIfFull
          = { values := flat cs', lengths := cs'.map List.length } := by
        unfold Register.evictIfFull MAX_REGISTER_HISTORY_LEN
        rw [if_pos (by simp only [hl, List.length_map, List.length_cons]; omega)]
        rw [hv, hl]
        simp [flat, List.drop_left]
      have hfit : lastN 101 ((c :: cs') ++ [b]) = cs' ++ [b] := by
        unfold lastN
        simp only [List.length_append, List.length_cons, hcs']
        norm_num
      rw [hev, hfit]
      refine ⟨?_, by simp, by simp [hcs']⟩
      rw [flat_append]
      simp [flat]

/-- Iterated `Register::write` preserves the bounded-history invariant:
starting from a register representing `cs`, writing the batches `bs`
yields the last (at most) 101 batches of `cs ++ bs`. -/
lemma Register.writeMany_lastN (bs : List (List Str)) :
    ∀ (reg : Register) (cs : List (List Str)),
      reg.values = flat cs → reg.lengths = cs.map List.length →
      cs.length ≤ 101 → (∀ b ∈ bs, b ≠ []) →
      ∃ r, reg.writeMany bs = some r ∧
        r.values = flat (lastN 101 (cs ++ bs)) ∧
        r.lengths = (lastN 101 (cs ++ bs)).map List.length := by
  induction bs with
  | nil =>
    intro reg cs hv hl hle _
    refine ⟨reg, rfl, ?_, ?_⟩ <;>
      rw [List.append_nil, lastN_of_length_le _ hle] <;> assumption
  | cons b bs ih =>
    intro reg cs hv hl hle hne
    obtain ⟨r, hw, hv', hl', hle'⟩ :=
      Register.write_step reg cs b hv hl hle (hne b (List.mem_cons_self _ _))
    obtain ⟨rr, hwm, hvv, hll⟩ := ih r (lastN 101 (cs ++ [b])) hv' hl' hle'
      (fun x hx => hne x (List.mem_cons_of_mem _ hx))
    refine ⟨rr, ?_, ?_, ?_⟩
    · unfold Register.writeMany
      rw [hw]
      exact hwm
    · rw [hvv, lastN_append_lastN]
      rw [List.append_assoc, List.singleton_append]
    · rw [hll, lastN_append_lastN]
      rw [List.append_assoc, List.singleton_append]

lemma flat_eq_dropLast_append (ds : List (List α)) (h : ds ≠ []) :
    flat ds = flat ds.dropLast ++ ds.getLast h := by
  conv_lhs => rw [← List.dropLast_append_getLast h]
  rw [flat_append]
  simp [flat]

lemma lengths_getLast (ds : List (List α)) (h : ds ≠ []) :
    (ds.map List.length).getLast? = some (ds.getLast h).length := by
  conv_lhs => rw [← List.dropLast_append_getLast h]
  rw [List.map_append]
  simp

lemma contentsLoop_singleton (sep y : Str) :
    contentsLoop sep [y] (sep ++ y) = true := by
  unfold contentsLoop
  rw [if_pos ⟨by rw [List.isPrefixOf_iff_prefix]; exact List.prefix_append _ _,
    by rw [List.drop_left, List.isPrefixOf_iff_prefix]⟩]
  rfl

lemma contents_are_saved_join_two (sep x y : Str) :
    contents_are_saved sep [x, y] (x ++ (sep ++ y)) = true := by
  show (if List.isPrefixOf x (x ++ (sep ++ y)) = true then
      contentsLoop sep [y] (List.drop x.length (x ++ (sep ++ y))) else false) = true
  rw [if_pos (by rw [List.isPrefixOf_iff_prefix]; exact List.prefix_append _ _)]
  rw [List.drop_left]
  exact contentsLoop_singleton sep y

/-- C1: the Content-Match Heuristic would never produce false positives: if
`contents_are_saved` returns true then the text equals the cached values
joined with the separator; in particular
`match(["ab","cd"], "ab<SEP>cde") = false`.  The code disagrees: after
consuming all cached values it returns `true` without requiring the
remaining text to be empty, so `contents_are_saved(["ab","cd"], "ab\ncde")`
evaluates to `true` — a false positive on trailing garbage. -/
theorem contents_are_saved_false_positive :
    contents_are_saved ['\n'] [['a', 'b'], ['c', 'd']] ['a', 'b', '\n', 'c', 'd', 'e'] = true := by
  decide

/-- C2: for every non-special register name and every non-empty value list
`vs`, `Registers::write(name, vs)` succeeds and a subsequent
`Registers::read(name)` yields exactly `vs`, in order. -/
theorem write_read_roundtrip (sep : Str) (setFail getFail : Bool) (s : Registers)
    (ed : EditorCtx) (name : Char) (vs : List Str)
    (h1 : name ≠ '_') (h2 : name ≠ '#') (h3 : name ≠ '.') (h4 : name ≠ '%')
    (h5 : name ≠ '+') (h6 : name ≠ '*') (hvs : vs ≠ []) :
    ∃ s', Registers.write sep setFail s name vs = some (s', Except.ok ()) ∧
      Registers.read sep getFail s' ed name = some vs := by
  obtain ⟨r, hw, hval, -⟩ := Register.write_ne_nil ((getReg s.inner name).getD ⟨[], []⟩) vs hvs
  refine ⟨{ s with inner := setReg s.inner name r }, ?_, ?_⟩
  · unfold Registers.write
    rw [if_neg h1, if_neg (show ¬(name = '#' ∨ name = '.' ∨ name = '%') by simp [h2, h3, h4]),
      if_neg (show ¬(name = '*' ∨ name = '+') by simp [h5, h6]), hw]
  · unfold Registers.read
    rw [if_neg h1, if_neg h2, if_neg h3, if_neg h4,
      if_neg (show ¬(name = '*' ∨ name = '+') by simp [h5, h6])]
    show (getReg (setReg s.inner name r) name).map Register.values' = some vs
    rw [getReg_setReg_self]
    simp [hval]

/-- Witness for C2 at a concrete input. -/
theorem write_read_roundtrip_witness :
    ('a' : Char) ≠ '_' ∧ ([['x']] : List Str) ≠ [] ∧
    ∃ s', Registers.write ['\n'] false ⟨[], [], [], '/'⟩ 'a' [['x']] = some (s', Except.ok ()) ∧
      Registers.read ['\n'] false s' ⟨0, [], none⟩ 'a' = some [['x']] :=
  ⟨by decide, by decide,
    write_read_roundtrip ['\n'] false false ⟨[], [], [], '/'⟩ ⟨0, [], none⟩ 'a' [['x']]
      (by decide) (by decide) (by decide) (by decide) (by decide) (by decide) (by decide)⟩

/-- C7: `Registers::write` and `Registers::push` on the read-only registers
`#`, `.`, `%` return a read-only-register error, `Registers::remove` on
them returns `false`, and none of the three mutates any store state. -/
theorem readonly_registers_inert (sep : Str) (getFail setFail : Bool)
    (s : Registers) (vs : List Str) (v : Str) (name : Char)
    (hname : name = '#' ∨ name = '.' ∨ name = '%') :
    Registers.write sep setFail s name vs = some (s, Except.error RegErr.readOnly) ∧
    Registers.push sep getFail setFail s name v = (s, Except.error RegErr.readOnly) ∧
    Registers.remove setFail s name = (s, false) := by
  rcases hname with h | h | h <;> subst h <;> exact ⟨rfl, rfl, rfl⟩

/-- Witness for C7 at a concrete input. -/
theorem readonly_registers_inert_witness :
    (('#' : Char) = '#' ∨ ('#' : Char) = '.' ∨ ('#' : Char) = '%') ∧
    Registers.write ['\n'] false ⟨[], [], [], '/'⟩ '#' [['x']]
      = some (⟨[], [], [], '/'⟩, Except.error RegErr.readOnly) ∧
    Registers.push ['\n'] false false ⟨[], [], [], '/'⟩ '#' ['x']
      = (⟨[], [], [], '/'⟩, Except.error RegErr.readOnly) ∧
    Registers.remove false ⟨[], [], [], '/'⟩ '#' = (⟨[], [], [], '/'⟩, false) :=
  ⟨Or.inl rfl,
    readonly_registers_inert ['\n'] false false ⟨[], [], [], '/'⟩ [['x']] ['x'] '#'
      (Or.inl rfl)⟩

/-- C8: `Register::write` with an empty value collection is a contract
violation that terminates abnormally (the `expect` panic, modelled as
`none`) rather than returning a recoverable error; every non-empty write
succeeds and records a batch of the corresponding non-zero length. -/
theorem register_write_contract :
    (∀ reg : Register, reg.write [] = none) ∧
    ∀ (reg : Register) (vs : List Str), vs ≠ [] →
      ∃ r, reg.write vs = some r ∧ r.lengths.getLast? = some vs.length ∧
        0 < vs.length := by
  constructor
  · intro reg
    rfl
  · intro reg vs hvs
    obtain ⟨r, hw, -, hlen⟩ := Register.write_ne_nil reg vs hvs
    exact ⟨r, hw, hlen, List.length_pos.mpr hvs⟩

/-- Witness for C8 at a concrete input. -/
theorem register_write_contract_witness :
    Register.write ⟨[], []⟩ [] = none ∧
    ([['x']] : List Str) ≠ [] ∧
    ∃ r, Register.write ⟨[], []⟩ [['x']] = some r ∧
      r.lengths.getLast? = some [['x']].length ∧ 0 < [['x']].length :=
  ⟨register_write_contract.1 ⟨[], []⟩, by decide,
    register_write_contract.2 ⟨[], []⟩ [['x']] (by decide)⟩

/-- C9: when the clipboard bridge's `get_contents` fails, the clipboard
read path logs the failure and returns an empty value sequence, and
`Registers::read` of a clipboard register returns that empty sequence
rather than an error. -/
theorem clipboard_read_failure_nonfatal (sep : Str) (contents : Str)
    (register : Option Register) (s : Registers) (ed : EditorCtx) (name : Char)
    (hname : name = '*' ∨ name = '+') :
    read_from_clipboard sep true contents register = ([], true) ∧
    Registers.read sep true s ed name = some [] := by
  refine ⟨rfl, ?_⟩
  rcases hname with h | h <;> subst h <;> rfl

/-- Witness for C9 at a concrete input. -/
theorem clipboard_read_failure_nonfatal_witness :
    (('+' : Char) = '*' ∨ ('+' : Char) = '+') ∧
    read_from_clipboard ['\n'] true ['x'] none = ([], true) ∧
    Registers.read ['\n'] true ⟨[], [], [], '/'⟩ ⟨0, [], none⟩ '+' = some [] :=
  ⟨Or.inr rfl,
    clipboard_read_failure_nonfatal ['\n'] ['x'] none ⟨[], [], [], '/'⟩ ⟨0, [], none⟩ '+'
      (Or.inr rfl)⟩

/-- C3: if the backing Register of a clipboard register exists (a write
has happened) and the external clipboard content no longer matches its
cached batch per the Content-Match Heuristic, then `Registers::push` fails
with the stale-clipboard error and the whole store state — register
mapping, backing Register and external clipboard — is unchanged. -/
theorem push_stale_clipboard_fails (sep : Str) (setFail : Bool) (s : Registers)
    (name : Char) (v : Str) (r : Register)
    (hname : name = '*' ∨ name = '+')
    (hreg : getReg s.inner name = some r)
    (hstale : contents_are_saved sep r.values' (s.getClip (clipTypeOf name)) = false) :
    Registers.push sep false setFail s name v = (s, Except.error RegErr.stale) := by
  have hset : setReg s.inner name r = s.inner := setReg_of_getReg _ _ _ hreg
  rcases hname with h | h <;> subst h <;> simp [Registers.push, hreg, hstale, hset]

/-- Witness for C3 at a concrete input (one prior write of `"a"`, third
party changed the clipboard to `"b"`). -/
theorem push_stale_clipboard_fails_witness :
    (('+' : Char) = '*' ∨ ('+' : Char) = '+') ∧
    getReg ([('+', ⟨[['a']], [1]⟩)] : List (Char × Register)) '+' = some ⟨[['a']], [1]⟩ ∧
    contents_are_saved ['\n'] (Register.values' ⟨[['a']], [1]⟩)
      (Registers.getClip ⟨[('+', ⟨[['a']], [1]⟩)], ['b'], [], '/'⟩ (clipTypeOf '+')) = false ∧
    Registers.push ['\n'] false false ⟨[('+', ⟨[['a']], [1]⟩)], ['b'], [], '/'⟩ '+' ['x']
      = (⟨[('+', ⟨[['a']], [1]⟩)], ['b'], [], '/'⟩, Except.error RegErr.stale) :=
  ⟨Or.inr rfl, by decide, by decide,
    push_stale_clipboard_fails ['\n'] false ⟨[('+', ⟨[['a']], [1]⟩)], ['b'], [], '/'⟩ '+'
      ['x'] ⟨[['a']], [1]⟩ (Or.inr rfl) (by decide) (by decide)⟩

/-- C5: `Registers::write('+', ["a","b"])` followed by `Registers::read('+')`,
with the clipboard bridge faithfully returning the text previously set,
yields the two distinct cached values `["a","b"]`, not one joined blob. -/
theorem clipboard_write_read_structured (sep : Str) (s : Registers) (ed : EditorCtx) :
    ∃ s', Registers.write sep false s '+' [['a'], ['b']] = some (s', Except.ok ()) ∧
      Registers.read sep false s' ed '+' = some [['a'], ['b']] := by
  obtain ⟨r, hw, hval, -⟩ :=
    Register.write_ne_nil ((getReg s.inner '+').getD ⟨[], []⟩) [['a'], ['b']] (by decide)
  refine ⟨({ s with inner := setReg s.inner '+' r } : Registers).setClip (clipTypeOf '+')
    (joinLoop sep r.values'), ?_, ?_⟩
  · simp [Registers.write, hw]
  · have hj : joinLoop sep r.values' = ['a'] ++ (sep ++ ['b']) := by
      rw [hval]; simp [joinLoop]
    unfold Registers.read
    simp only [inner_setClip, getClip_setClip, getReg_setReg_self]
    norm_num only
    unfold read_from_clipboard
    rw [hj]
    have h2 := contents_are_saved_join_two sep ['a'] ['b']
    simp only [List.cons_append, List.nil_append] at h2 ⊢
    simp [h2, hval]

/-- C6: `Registers::write` on a clipboard register with non-empty values
stores the values as a new batch in the backing Register and sets the
external clipboard to that Register's current values joined with the
separator; a backend set failure is returned as an error while the local
backing Register remains updated. -/
theorem clipboard_write_updates_both (sep : Str) (s : Registers) (name : Char)
    (vs : List Str) (hname : name = '*' ∨ name = '+') (hvs : vs ≠ []) :
    ∃ r, ((getReg s.inner name).getD ⟨[], []⟩).write vs = some r ∧ r.values' = vs ∧
      (∃ s₁, Registers.write sep true s name vs = some (s₁, Except.error RegErr.backend) ∧
        getReg s₁.inner name = some r ∧
        s₁.clipClipboard = s.clipClipboard ∧ s₁.clipSelection = s.clipSelection) ∧
      ∃ s₂, Registers.write sep false s name vs = some (s₂, Except.ok ()) ∧
        getReg s₂.inner name = some r ∧
        s₂.getClip (clipTypeOf name) = joinLoop sep r.values' := by
  obtain ⟨r, hw, hval, -⟩ := Register.write_ne_nil ((getReg s.inner name).getD ⟨[], []⟩) vs hvs
  refine ⟨r, hw, hval, ?_, ?_⟩ <;> rcases hname with h | h <;> subst h
  · exact ⟨{ s with inner := setReg s.inner '*' r }, by simp [Registers.write, hw],
      getReg_setReg_self _ _ _, rfl, rfl⟩
  · exact ⟨{ s with inner := setReg s.inner '+' r }, by simp [Registers.write, hw],
      getReg_setReg_self _ _ _, rfl, rfl⟩
  · refine ⟨({ s with inner := setReg s.inner '*' r } : Registers).setClip (clipTypeOf '*')
      (joinLoop sep r.values'), ?_, ?_, ?_⟩
    · simp [Registers.write, hw]
    · rw [inner_setClip]
      exact getReg_setReg_self _ _ _
    · exact getClip_setClip _ _ _
  · refine ⟨({ s with inner := setReg s.inner '+' r } : Registers).setClip (clipTypeOf '+')
      (joinLoop sep r.values'), ?_, ?_, ?_⟩
    · simp [Registers.write, hw]
    · rw [inner_setClip]
      exact getReg_setReg_self _ _ _
    · exact getClip_setClip _ _ _

/-- Witness for C6 at a concrete input. -/
theorem clipboard_write_updates_both_witness :
    (('+' : Char) = '*' ∨ ('+' : Char) = '+') ∧ ([['a']] : List Str) ≠ [] ∧
    ∃ r, (Register.write ((getReg (([] : List (Char × Register))) '+').getD ⟨[], []⟩)
        [['a']] = some r) ∧ r.values' = [['a']] ∧
      (∃ s₁, Registers.write ['\n'] true ⟨[], [], [], '/'⟩ '+' [['a']]
          = some (s₁, Except.error RegErr.backend) ∧
        getReg s₁.inner '+' = some r ∧
        s₁.clipClipboard = ([] : Str) ∧ s₁.clipSelection = ([] : Str)) ∧
      ∃ s₂, Registers.write ['\n'] false ⟨[], [], [], '/'⟩ '+' [['a']]
          = some (s₂, Except.ok ()) ∧
        getReg s₂.inner '+' = some r ∧
        s₂.getClip (clipTypeOf '+') = joinLoop ['\n'] r.values' :=
  ⟨Or.inr rfl, by decide,
    clipboard_write_updates_both ['\n'] ⟨[], [], [], '/'⟩ '+' [['a']] (Or.inr rfl) (by decide)⟩

/-- C10: on a push to a clipboard register whose staleness check passes,
the value is appended to the local backing Register before the external
set is attempted, so a backend set failure returns an error while the
appended value remains in the local Register and the external clipboard is
unchanged. -/
theorem push_set_failure_keeps_local (sep : Str) (s : Registers) (name : Char) (v : Str)
    (hname : name = '*' ∨ name = '+')
    (hmatch : contents_are_saved sep ((getReg s.inner name).getD ⟨[], []⟩).values'
      (s.getClip (clipTypeOf name)) = true) :
    ∃ s', Registers.push sep false true s name v = (s', Except.error RegErr.backend) ∧
      getReg s'.inner name = some (((getReg s.inner name).getD ⟨[], []⟩).push v) ∧
      s'.clipClipboard = s.clipClipboard ∧ s'.clipSelection = s.clipSelection ∧
      (((getReg s.inner name).getD ⟨[], []⟩).push v).values
        = ((getReg s.inner name).getD ⟨[], []⟩).values ++ [v] := by
  rcases hname with h | h <;> subst h
  · set reg := (getReg s.inner '*').getD ⟨[], []⟩ with hregdef
    refine ⟨{ s with inner := setReg (setReg s.inner '*' reg) '*' (reg.push v) },
      ?_, ?_, rfl, rfl, rfl⟩
    · simp [Registers.push, hmatch, ← hregdef]
    · exact getReg_setReg_self _ _ _
  · set reg := (getReg s.inner '+').getD ⟨[], []⟩ with hregdef
    refine ⟨{ s with inner := setReg (setReg s.inner '+' reg) '+' (reg.push v) },
      ?_, ?_, rfl, rfl, rfl⟩
    · simp [Registers.push, hmatch, ← hregdef]
    · exact getReg_setReg_self _ _ _

/-- Witness for C10 at a concrete input (cached batch `["a"]`, clipboard
still `"a"`, backend set fails). -/
theorem push_set_failure_keeps_local_witness :
    (('+' : Char) = '*' ∨ ('+' : Char) = '+') ∧
    contents_are_saved ['\n']
      ((getReg ([('+', ⟨[['a']], [1]⟩)] : List (Char × Register)) '+').getD ⟨[], []⟩).values'
      (Registers.getClip ⟨[('+', ⟨[['a']], [1]⟩)], ['a'], [], '/'⟩ (clipTypeOf '+')) = true ∧
    ∃ s', Registers.push ['\n'] false true ⟨[('+', ⟨[['a']], [1]⟩)], ['a'], [], '/'⟩ '+' ['x']
        = (s', Except.error RegErr.backend) ∧
      getReg s'.inner '+' = some ((Register.push ⟨[['a']], [1]⟩) ['x']) ∧
      s'.clipClipboard = ['a'] ∧ s'.clipSelection = ([] : Str) ∧
      (Register.push ⟨[['a']], [1]⟩ ['x']).values = [['a']] ++ [['x']] :=
  ⟨Or.inr rfl, by decide,
    push_set_failure_keeps_local ['\n'] ⟨[('+', ⟨[['a']], [1]⟩)], ['a'], [], '/'⟩ '+' ['x']
      (Or.inr rfl) (by decide)⟩

/-- C4: for every sequence of `Register::write` calls to one name (each
batch non-empty, starting from the freshly created register), at most
`MAX_REGISTER_HISTORY_LEN + 1 = 101` batches are retained at any
observable moment, eviction is FIFO — the retained batches are exactly
the most recent at most 101 ones, in order — and `values()` always
exposes exactly the most recent batch. -/
theorem register_write_history_bound (bs : List (List Str))
    (hne : ∀ b ∈ bs, b ≠ []) :
    ∃ r, Register.writeMany ⟨[], []⟩ bs = some r ∧
      r.values = flat (lastN 101 bs) ∧
      r.lengths = (lastN 101 bs).map List.length ∧
      r.lengths.length ≤ 101 ∧
      MAX_REGISTER_HISTORY_LEN + 1 = 101 ∧
      (bs ≠ [] → r.values' = bs.getLast?.getD []) := by
  obtain ⟨r, hwm, hv, hl⟩ :=
    Register.writeMany_lastN bs ⟨[], []⟩ [] rfl rfl (by simp) hne
  rw [List.nil_append] at hv hl
  refine ⟨r, hwm, hv, hl, ?_, rfl, ?_⟩
  · rw [hl, List.length_map]
    exact lastN_length_le _ _
  · intro hbs
    have h1 : 0 < bs.length := List.length_pos.mpr hbs
    have hds : lastN 101 bs ≠ [] := by
      have h2 : 0 < (lastN 101 bs).length := by
        unfold lastN
        rw [List.length_drop]
        omega
      exact List.length_pos.mp h2
    set ds := lastN 101 bs with hdsdef
    have hlast : bs.getLast?.getD [] = ds.getLast hds := by
      have h3 : bs.getLast? = ds.getLast? := by
        conv_lhs => rw [← List.take_append_drop (bs.length - 101) bs]
        exact List.getLast?_append_of_ne_nil _ hds
      rw [h3, List.getLast?_eq_getLast ds hds]
      rfl
    rw [hlast]
    unfold Register.values'
    rw [hv, hl, lengths_getLast _ hds, Option.getD_some, flat_eq_dropLast_append _ hds]
    exact lastN_append _ _

/-- Witness for C4 at a concrete input. -/
theorem register_write_history_bound_witness :
    (∀ b ∈ ([[['a']], [['b']]] : List (List Str)), b ≠ []) ∧
    ∃ r, Register.writeMany ⟨[], []⟩ [[['a']], [['b']]] = some r ∧
      r.values = flat (lastN 101 [[['a']], [['b']]]) ∧
      r.lengths = (lastN 101 [[['a']], [['b']]]).map List.length ∧
      r.lengths.length ≤ 101 ∧
      MAX_REGISTER_HISTORY_LEN + 1 = 101 ∧
      (([[['a']], [['b']]] : List (List Str)) ≠ [] →
        r.values' = ([[['a']], [['b']]] : List (List Str)).getLast?.getD []) :=
  ⟨by decide, register_write_history_bound [[['a']], [['b']]] (by decide)⟩
